import Mathlib

/-!
Shallow embedding of the WebMoney signer core (package `signer`):
byte/word reversal utilities, the MD4-based keyed hash, key-container
decryption/verification/extraction and the signing pipeline.
Bytes are modelled as `Nat` values below 256; machine words are `Nat`
reduced mod 2^32 where the code's `uint32` arithmetic wraps.
-/

set_option maxRecDepth 1000000

namespace WebMoney

/-- Truncation to a 32-bit machine word, as Go `uint32` arithmetic wraps. -/
def w32 (x : Nat) : Nat := x % 4294967296

/-- Rotate a 32-bit word left by `s` bits. -/
def rotl32 (s x : Nat) : Nat := w32 (x <<< s) ||| (x >>> (32 - s))

/-- Little-endian byte serialization of `x` on `k` bytes
(Go `binary.LittleEndian` layout for the fixed-width integer fields). -/
def leBytes (k x : Nat) : List Nat := (List.range k).map (fun i => (x >>> (8 * i)) % 256)

/-- MD4 round function F (RFC 1320). -/
def mdF (x y z : Nat) : Nat := (x &&& y) ||| ((x ^^^ 4294967295) &&& z)

/-- MD4 round function G (RFC 1320). -/
def mdG (x y z : Nat) : Nat := (x &&& y) ||| (x &&& z) ||| (y &&& z)

/-- MD4 round function H (RFC 1320). -/
def mdH (x y z : Nat) : Nat := x ^^^ y ^^^ z

/-- One MD4 step: update the `a` slot from `f`, the message word at
index `xi`, the round constant `k` and the rotation `s`, then rotate roles. -/
def md4Step (f : Nat → Nat → Nat → Nat) (k : Nat) (X : List Nat)
    (st : Nat × Nat × Nat × Nat) (p : Nat × Nat) : Nat × Nat × Nat × Nat :=
  match st, p with
  | (a, b, c, d), (xi, s) => (d, rotl32 s (w32 (a + f b c d + X.getD xi 0 + k)), b, c)

/-- Schedule of round 1: message-word index and rotation for each step. -/
def md4Sched1 : List (Nat × Nat) :=
  [(0, 3), (1, 7), (2, 11), (3, 19), (4, 3), (5, 7), (6, 11), (7, 19),
   (8, 3), (9, 7), (10, 11), (11, 19), (12, 3), (13, 7), (14, 11), (15, 19)]

/-- Schedule of round 2. -/
def md4Sched2 : List (Nat × Nat) :=
  [(0, 3), (4, 5), (8, 9), (12, 13), (1, 3), (5, 5), (9, 9), (13, 13),
   (2, 3), (6, 5), (10, 9), (14, 13), (3, 3), (7, 5), (11, 9), (15, 13)]

/-- Schedule of round 3. -/
def md4Sched3 : List (Nat × Nat) :=
  [(0, 3), (8, 9), (4, 11), (12, 15), (2, 3), (10, 9), (6, 11), (14, 15),
   (1, 3), (9, 9), (5, 11), (13, 15), (3, 3), (11, 9), (7, 11), (15, 15)]

/-- MD4 compression of one 16-word block into the chaining state. -/
def md4Block (st : Nat × Nat × Nat × Nat) (X : List Nat) : Nat × Nat × Nat × Nat :=
  match st with
  | (a0, b0, c0, d0) =>
    let st1 := md4Sched1.foldl (md4Step mdF 0 X) (a0, b0, c0, d0)
    let st2 := md4Sched2.foldl (md4Step mdG 1518500249 X) st1
    let st3 := md4Sched3.foldl (md4Step mdH 1859775393 X) st2
    match st3 with
    | (a, b, c, d) => (w32 (a + a0), w32 (b + b0), w32 (c + c0), w32 (d + d0))

/-- Group a little-endian byte list into 32-bit message words. -/
def toWordsLE : List Nat → List Nat
  | b0 :: b1 :: b2 :: b3 :: rest =>
      (b0 + 256 * b1 + 65536 * b2 + 16777216 * b3) :: toWordsLE rest
  | _ => []

/-- Run the MD4 compression over successive 16-word blocks. -/
def md4Rounds : Nat × Nat × Nat × Nat → List Nat → Nat × Nat × Nat × Nat
  | st, x0 :: x1 :: x2 :: x3 :: x4 :: x5 :: x6 :: x7 ::
        x8 :: x9 :: x10 :: x11 :: x12 :: x13 :: x14 :: x15 :: rest =>
      md4Rounds (md4Block st
        [x0, x1, x2, x3, x4, x5, x6, x7, x8, x9, x10, x11, x12, x13, x14, x15]) rest
  | st, _ => st

/-- MD4 padding: a 0x80 byte, zeros to 56 mod 64, then the 64-bit
little-endian bit length. -/
def md4Pad (msg : List Nat) : List Nat :=
  msg ++ 128 :: List.replicate ((55 + 64 - msg.length % 64) % 64) 0 ++ leBytes 8 (8 * msg.length)

/-- The canonical MD4 digest (RFC 1320): 16 bytes, little-endian state output. -/
def md4 (msg : List Nat) : List Nat :=
  let st := md4Rounds (1732584193, 4023233417, 2562383102, 271733878) (toWordsLE (md4Pad msg))
  leBytes 4 st.1 ++ leBytes 4 st.2.1 ++ leBytes 4 st.2.2.1 ++ leBytes 4 st.2.2.2

/-- Lowercase hexadecimal digit characters, as used by `hex.EncodeToString`. -/
def hexDigit (n : Nat) : Char := "0123456789abcdef".toList.getD n '0'

/-- Lowercase hex encoding of a byte list (`hex.EncodeToString`). -/
def hexEncode (data : List Nat) : String :=
  String.mk (data.foldr (fun b acc => hexDigit (b / 16) :: hexDigit (b % 16) :: acc) [])

/-- The repository's `md4Hash` (`hash.Sum(data)[length:]`): Go's
`hash.Sum(in)` appends the canonical digest to `in`, so the code slices
the digest back out of `data ++ digest` by dropping `len(data)` bytes. -/
def md4Hash (data : List Nat) : List Nat := (data ++ md4 data).drop data.length

/-- UTF-8 encoding of one character, as Go's `[]byte(string)` conversion. -/
def utf8Bytes (c : Char) : List Nat :=
  let n := c.toNat
  if n < 128 then [n]
  else if n < 2048 then [192 + n / 64, 128 + n % 64]
  else if n < 65536 then [224 + n / 4096, 128 + n / 64 % 64, 128 + n % 64]
  else [240 + n / 262144, 128 + n / 4096 % 64, 128 + n / 64 % 64, 128 + n % 64]

/-- Byte view of a Go string (`[]byte(s)`, UTF-8). -/
def strToBytes (s : String) : List Nat := (s.toList.map utf8Bytes).flatten

/-- `reverseBytes` from the source: `reversed[i-1] = data[length-i]`,
i.e. entry `j` of the result is entry `length-1-j` of the input. -/
def reverseBytes (data : List Nat) : List Nat :=
  (List.range data.length).map (fun j => data.getD (data.length - 1 - j) 0)

/-- `reverseWords` from the source: same index scheme on 2-byte words. -/
def reverseWords (data : List (Nat × Nat)) : List (Nat × Nat) :=
  (List.range data.length).map (fun j => data.getD (data.length - 1 - j) (0, 0))

/-- Consecutive byte pairs, as `binary.Read` fills a `[]word` slice
(`word = [2]byte`, so byte order inside a word is unaffected by endianness). -/
def toWords : List Nat → List (Nat × Nat)
  | a :: b :: rest => (a, b) :: toWords rest
  | _ => []

/-- Flatten 2-byte words back to bytes (`result = append(result, v[:]...)`). -/
def flattenWords : List (Nat × Nat) → List Nat
  | [] => []
  | (a, b) :: rest => a :: b :: flattenWords rest

/-- `Signer.reverseBytesAsWords`: left-pad odd input with one zero byte,
group into 2-byte words, reverse word order, flatten. The `binary.Read`
inside cannot fail (the buffer holds exactly `2 * len(words)` bytes). -/
def reverseBytesAsWords (data : List Nat) : List Nat :=
  let padded := if data.length % 2 ≠ 0 then 0 :: data else data
  flattenWords (reverseWords (toWords padded))

/-- `big.Int.SetBytes`: interpret a buffer as a big-endian unsigned integer. -/
def bytesToNat (data : List Nat) : Nat := data.foldl (fun acc b => acc * 256 + b) 0

/-- `big.Int.Bytes`: minimal big-endian representation, empty for zero. -/
def natToBytes (n : Nat) : List Nat :=
  if n = 0 then [] else natToBytes (n / 256) ++ [n % 256]
decreasing_by exact Nat.div_lt_self (Nat.pos_of_ne_zero (by assumption)) (by omega)

/-- The `Signer` record: the extracted power (exponent) and modulus. -/
structure Signer where
  power : Nat
  modulus : Nat
deriving DecidableEq

/-- `Signer.Sign` with the random draw made explicit: the 40-byte read
from the secure random source is passed in as an `Except` value so the
code's early return on a failed read is preserved. `x^p % 0 = x^p` in
`Nat` matches `big.Int.Exp` with modulus zero. -/
def signSign (m : Signer) (data : List Nat) (rndResult : Except String (List Nat)) :
    Except String String :=
  match rndResult with
  | Except.error e => Except.error e
  | Except.ok rnd =>
    let hash := md4Hash data
    let base := hash ++ rnd
    let baseLength := base.length % 256
    let base := baseLength :: 0 :: base
    let baseReversed := reverseBytes base
    let result := bytesToNat baseReversed ^ m.power % m.modulus
    Except.ok (hexEncode (reverseBytesAsWords (natToBytes result)))

/-- The `keyContainerKey` record: `Reserved uint16`, `SignFlag uint16`,
`Crc [16]byte`, `Length uint32`, `Buffer [140]byte`. -/
structure KeyContainerKey where
  reserved : Nat
  signFlag : Nat
  crc : List Nat
  length : Nat
  buffer : List Nat
deriving DecidableEq

/-- `binary.Read(bytes.NewReader(key), binary.LittleEndian, keyContainer.key)`:
little-endian field-by-field decode of the 164-byte container. -/
def parseKeyContainerKey (key : List Nat) : KeyContainerKey :=
  { reserved := key.getD 0 0 + 256 * key.getD 1 0
  , signFlag := key.getD 2 0 + 256 * key.getD 3 0
  , crc := (key.drop 4).take 16
  , length := key.getD 20 0 + 256 * key.getD 21 0 + 65536 * key.getD 22 0
      + 16777216 * key.getD 23 0
  , buffer := (key.drop 24).take 140 }

/-- `binary.Write(buffer, binary.LittleEndian, key)`: serializes every
field of the struct in declaration order, packed little-endian. -/
def serializeKeyContainerKey (k : KeyContainerKey) : List Nat :=
  leBytes 2 k.reserved ++ leBytes 2 k.signFlag ++ k.crc ++ leBytes 4 k.length ++ k.buffer

/-- The `xor` helper: a zero-initialized 140-byte result, the first
`shift-1` bytes copied from the subject, and bytes from `shift` on
XORed against the cyclically repeated modifier. -/
def xorBuffer (subject modifier : List Nat) (shift : Nat) : List Nat :=
  (List.range 140).map (fun i =>
    if i < shift - 1 then subject.getD i 0
    else if i < shift then 0
    else subject.getD i 0 ^^^ modifier.getD ((i - shift) % modifier.length) 0)

/-- `keyContainer.Encrypt`: XOR the inner buffer against
`md4Hash(wmid + keyPassword)` with shift 6. -/
def encrypt (k : KeyContainerKey) (wmid keyPassword : String) : KeyContainerKey :=
  { k with buffer := xorBuffer k.buffer (md4Hash (strToBytes (wmid ++ keyPassword))) 6 }

/-- `keyContainer.Verify`: re-serialize a header holding only the
reserved, length and buffer fields (the others Go-zero-valued), hash it,
compare with the stored checksum. -/
def verify (k : KeyContainerKey) : Bool :=
  let view : KeyContainerKey :=
    { reserved := k.reserved, signFlag := 0, crc := List.replicate 16 0
    , length := k.length, buffer := k.buffer }
  md4Hash (serializeKeyContainerKey view) == k.crc

/-- The `keyData` record: `Reserved uint32`, `PowerBase uint16`,
`Power [66]byte`, `ModulusBase uint16`, `Modulus [66]byte`. -/
structure KeyData where
  reserved : Nat
  powerBase : Nat
  power : List Nat
  modulusBase : Nat
  modulus : List Nat
deriving DecidableEq

/-- `binary.Read(bytes.NewReader(m.key.Buffer[:]), binary.LittleEndian, data)`:
little-endian field-by-field decode of the 140-byte inner buffer. -/
def parseKeyData (b : List Nat) : KeyData :=
  { reserved := b.getD 0 0 + 256 * b.getD 1 0 + 65536 * b.getD 2 0 + 16777216 * b.getD 3 0
  , powerBase := b.getD 4 0 + 256 * b.getD 5 0
  , power := (b.drop 6).take 66
  , modulusBase := b.getD 72 0 + 256 * b.getD 73 0
  , modulus := (b.drop 74).take 66 }

/-- `keyContainer.Extract`: decode the inner buffer as `keyData`,
byte-reverse the two 66-byte fields in place and read them big-endian
(`big.Int.SetBytes`). The container itself is not written to. -/
def extract (k : KeyContainerKey) : Nat × Nat :=
  let data := parseKeyData k.buffer
  (bytesToNat (reverseBytes data.power), bytesToNat (reverseBytes data.modulus))

/-- `newKeyContainer`: decode the container then decrypt it in place. -/
def newKeyContainerFn (key : List Nat) (wmid keyPassword : String) : KeyContainerKey :=
  encrypt (parseKeyContainerKey key) wmid keyPassword

/-- The base64 alphabet of `base64.StdEncoding`. -/
def b64Val (c : Char) : Option Nat :=
  if 'A' ≤ c ∧ c ≤ 'Z' then some (c.toNat - 65)
  else if 'a' ≤ c ∧ c ≤ 'z' then some (c.toNat - 71)
  else if '0' ≤ c ∧ c ≤ '9' then some (c.toNat + 4)
  else if c = '+' then some 62
  else if c = '/' then some 63
  else none

/-- Standard base64 decoding by 4-character groups with `=` padding,
as `base64.StdEncoding.DecodeString`. -/
def base64DecodeGroups : List Char → Option (List Nat)
  | [] => some []
  | c0 :: c1 :: c2 :: c3 :: rest =>
    match b64Val c0, b64Val c1 with
    | some v0, some v1 =>
      if c2 = '=' then
        if c3 = '=' ∧ rest = [] then some [v0 * 4 + v1 / 16]
        else none
      else
        match b64Val c2 with
        | some v2 =>
          if c3 = '=' then
            if rest = [] then some [v0 * 4 + v1 / 16, v1 % 16 * 16 + v2 / 4]
            else none
          else
            match b64Val c3 with
            | some v3 =>
              (base64DecodeGroups rest).map
                (fun tl => (v0 * 4 + v1 / 16) :: (v1 % 16 * 16 + v2 / 4) :: (v2 % 4 * 64 + v3) :: tl)
            | none => none
        | none => none
    | _, _ => none
  | _ => none

/-- `base64.StdEncoding.DecodeString`, `none` on malformed input. -/
def base64Decode (s : String) : Option (List Nat) := base64DecodeGroups s.toList

deriving instance DecidableEq for Except

/-- The sentinel errors of the signer package plus the base64 decode
failure propagated by `NewSigner`. -/
inductive SignerError where
  | keyFileBroken
  | wmIdNotConfigured
  | wmIdIsIncorrect
  | keyNotConfigured
  | passwordNotConfigured
  | base64Malformed
deriving DecidableEq

/-- The `Options` record of the signer package (the test-only
`newKeyContainerFn` override is the default production one here). -/
structure Options where
  wmId : String := ""
  key : String := ""
  password : String := ""
deriving DecidableEq

/-- A functional option, as `type Option func(*Options)`. -/
def OptionFn := Options → Options

/-- `WmId(val)` option. -/
def wmIdOpt (val : String) : OptionFn := fun o => { o with wmId := val }

/-- `Key(val)` option. -/
def keyOpt (val : String) : OptionFn := fun o => { o with key := val }

/-- `Password(val)` option. -/
def passwordOpt (val : String) : OptionFn := fun o => { o with password := val }

/-- ASCII decimal digit test, byte-level `[0-9]` of the regex. -/
def isDigitChar (c : Char) : Bool := '0' ≤ c && c ≤ '9'

/-- `WmIdRegex.MatchString`: the pattern `[0-9]{12}` is unanchored, so it
matches exactly when some position starts a run of 12 decimal digits. -/
def hasTwelveDigitRun : List Char → Bool
  | [] => false
  | c :: rest =>
    (decide (12 ≤ (c :: rest).length) && ((c :: rest).take 12).all isDigitChar)
      || hasTwelveDigitRun rest

/-- `WmIdRegex.MatchString(wmId)`. -/
def wmIdRegexMatch (s : String) : Bool := hasTwelveDigitRun s.toList

/-- `executeOptions`: apply the options to a zero value, then validate
identifier, key and passphrase in order. -/
def executeOptions (opts : List OptionFn) : Except SignerError Options :=
  let o := opts.foldl (fun o f => f o) {}
  if o.wmId = "" then Except.error SignerError.wmIdNotConfigured
  else if ¬ wmIdRegexMatch o.wmId then Except.error SignerError.wmIdIsIncorrect
  else if o.key = "" then Except.error SignerError.keyNotConfigured
  else if o.password = "" then Except.error SignerError.passwordNotConfigured
  else Except.ok o

/-- `NewSigner`: validate options, base64-decode the key, check the
164-byte length, build and decrypt the container, verify its checksum,
extract (power, modulus). -/
def newSigner (opts : List OptionFn) : Except SignerError Signer :=
  match executeOptions opts with
  | Except.error e => Except.error e
  | Except.ok options =>
    match base64Decode options.key with
    | none => Except.error SignerError.base64Malformed
    | some decodedKey =>
      if decodedKey.length ≠ 164 then Except.error SignerError.keyFileBroken
      else
        let kc := newKeyContainerFn decodedKey options.wmId options.password
        if ¬ verify kc then Except.error SignerError.keyFileBroken
        else
          let pm := extract kc
          Except.ok { power := pm.1, modulus := pm.2 }

/-! ### Helper lemmas -/

theorem leBytes_length (k x : Nat) : (leBytes k x).length = k := by
  simp [leBytes]

theorem leBytes_mem_lt (k x : Nat) : ∀ b ∈ leBytes k x, b < 256 := by
  intro b hb
  simp only [leBytes, List.mem_map, List.mem_range] at hb
  obtain ⟨i, _, rfl⟩ := hb
  exact Nat.mod_lt _ (by norm_num)

theorem md4_length (msg : List Nat) : (md4 msg).length = 16 := by
  simp [md4, leBytes_length]

theorem md4_mem_lt (msg : List Nat) : ∀ b ∈ md4 msg, b < 256 := by
  intro b hb
  simp only [md4, List.mem_append] at hb
  rcases hb with ((h | h) | h) | h <;> exact leBytes_mem_lt _ _ _ h

theorem md4Hash_eq (data : List Nat) : md4Hash data = md4 data := by
  simp [md4Hash]

theorem md4Hash_length (data : List Nat) : (md4Hash data).length = 16 := by
  rw [md4Hash_eq, md4_length]

theorem md4Hash_mem_lt (data : List Nat) : ∀ b ∈ md4Hash data, b < 256 := by
  rw [md4Hash_eq]; exact md4_mem_lt data

theorem reverseBytes_length (data : List Nat) : (reverseBytes data).length = data.length := by
  simp [reverseBytes]

theorem reverseBytes_eq_reverse (data : List Nat) : reverseBytes data = data.reverse := by
  apply List.ext_getElem
  · simp [reverseBytes_length]
  · intro i h1 h2
    simp only [reverseBytes, List.getElem_map, List.getElem_range, List.getElem_reverse]
    rw [List.getD_eq_getElem]

theorem bytesToNat_foldl (acc : Nat) (l : List Nat) :
    l.foldl (fun acc b => acc * 256 + b) acc = acc * 256 ^ l.length + bytesToNat l := by
  induction l generalizing acc with
  | nil => simp [bytesToNat]
  | cons x t ih =>
    have hx : bytesToNat (x :: t) = x * 256 ^ t.length + bytesToNat t := by
      simp only [bytesToNat, List.foldl_cons, Nat.zero_mul, Nat.zero_add]
      exact ih x
    simp only [List.foldl_cons, List.length_cons, hx]
    rw [ih (acc * 256 + x)]
    ring

theorem bytesToNat_cons (x : Nat) (t : List Nat) :
    bytesToNat (x :: t) = x * 256 ^ t.length + bytesToNat t := by
  simp only [bytesToNat, List.foldl_cons, Nat.zero_mul, Nat.zero_add]
  exact bytesToNat_foldl x t

theorem bytesToNat_lt (l : List Nat) (h : ∀ b ∈ l, b < 256) :
    bytesToNat l < 256 ^ l.length := by
  induction l with
  | nil => simp [bytesToNat]
  | cons x t ih =>
    rw [bytesToNat_cons]
    have hx : x < 256 := h x (List.mem_cons_self x t)
    have ht : bytesToNat t < 256 ^ t.length := ih (fun b hb => h b (List.mem_cons_of_mem _ hb))
    have hstep : (x + 1) * 256 ^ t.length ≤ 256 * 256 ^ t.length :=
      Nat.mul_le_mul_right _ (by omega)
    calc x * 256 ^ t.length + bytesToNat t < (x + 1) * 256 ^ t.length := by
          rw [Nat.succ_mul]; omega
      _ ≤ 256 * 256 ^ t.length := hstep
      _ = 256 ^ (x :: t).length := by rw [List.length_cons, pow_succ]; ring

theorem bytesToNat_inj (l1 l2 : List Nat) (hlen : l1.length = l2.length)
    (h1 : ∀ b ∈ l1, b < 256) (h2 : ∀ b ∈ l2, b < 256)
    (heq : bytesToNat l1 = bytesToNat l2) : l1 = l2 := by
  induction l1 generalizing l2 with
  | nil => cases l2 with
    | nil => rfl
    | cons y s => simp at hlen
  | cons x t ih =>
    cases l2 with
    | nil => simp at hlen
    | cons y s =>
      have hts : t.length = s.length := by simpa using hlen
      rw [bytesToNat_cons, bytesToNat_cons, hts] at heq
      have hbt : bytesToNat t < 256 ^ s.length := by
        rw [← hts]; exact bytesToNat_lt t (fun b hb => h1 b (List.mem_cons_of_mem _ hb))
      have hbs : bytesToNat s < 256 ^ s.length :=
        bytesToNat_lt s (fun b hb => h2 b (List.mem_cons_of_mem _ hb))
      have hpos : 0 < 256 ^ s.length := Nat.pos_pow_of_pos _ (by norm_num)
      have hxy : x = y := by
        have hx : (256 ^ s.length * x + bytesToNat t) / 256 ^ s.length = x := by
          rw [Nat.mul_add_div hpos, Nat.div_eq_of_lt hbt, Nat.add_zero]
        have hy : (256 ^ s.length * y + bytesToNat s) / 256 ^ s.length = y := by
          rw [Nat.mul_add_div hpos, Nat.div_eq_of_lt hbs, Nat.add_zero]
        rw [← hx, ← hy, Nat.mul_comm x, Nat.mul_comm y] at *
        rw [heq]
      subst hxy
      have hteq : bytesToNat t = bytesToNat s := by omega
      rw [ih s hts (fun b hb => h1 b (List.mem_cons_of_mem _ hb))
        (fun b hb => h2 b (List.mem_cons_of_mem _ hb)) hteq]

theorem natToBytes_zero : natToBytes 0 = [] := by
  simp [natToBytes]

theorem reverseBytesAsWords_nil : reverseBytesAsWords [] = [] := rfl

theorem hexEncode_nil : hexEncode [] = "" := rfl


theorem xorBuffer_length (s mo : List Nat) (shift : Nat) :
    (xorBuffer s mo shift).length = 140 := by
  simp [xorBuffer]

theorem xorBuffer_getD (s mo : List Nat) (shift i : Nat) (h : i < 140) :
    (xorBuffer s mo shift).getD i 0 =
      if i < shift - 1 then s.getD i 0
      else if i < shift then 0
      else s.getD i 0 ^^^ mo.getD ((i - shift) % mo.length) 0 := by
  rw [List.getD_eq_getElem _ _ (by simpa [xorBuffer_length] using h)]
  simp [xorBuffer]

theorem encrypt_buffer (k : KeyContainerKey) (wmid keyPassword : String) :
    (encrypt k wmid keyPassword).buffer =
      xorBuffer k.buffer (md4Hash (strToBytes (wmid ++ keyPassword))) 6 := rfl

/-! ### Claim theorems -/

/-- C9: for every byte buffer `b`, including the empty one,
`reverseBytes (reverseBytes b) = b`, the result has the same length as
`b`, and the byte order is fully reversed. -/
theorem claim_C9_reverseBytes_involution (b : List Nat) :
    reverseBytes (reverseBytes b) = b ∧
    (reverseBytes b).length = b.length ∧
    reverseBytes b = b.reverse := by
  refine ⟨?_, reverseBytes_length b, reverseBytes_eq_reverse b⟩
  rw [reverseBytes_eq_reverse, reverseBytes_eq_reverse, List.reverse_reverse]

/-- C4 counterexample: there is no input on which the keyed-hash
primitive differs from the canonical MD4 digest — `hash.Sum(data)`
appends the canonical digest to `data`, and slicing at `[length:]`
recovers exactly that digest. -/
theorem claim_C4_counterexample : ¬ ∃ data : List Nat, md4Hash data ≠ md4 data := by
  rintro ⟨data, hne⟩
  exact hne (md4Hash_eq data)

/-- C4 (amended): for every input, the keyed-hash primitive's 16-byte
output equals the primitive's conventional public 128-bit MD4 digest of
that input; the unusual-looking extraction only slices the appended
canonical digest back out of the `Sum` result. -/
theorem claim_C4_keyedHash_is_canonical (data : List Nat) : md4Hash data = md4 data :=
  md4Hash_eq data

/-- C2 (amended): decryption XORs the 140-byte inner buffer against the
16-byte keyed hash of identifier ++ passphrase from fixed offset 6 with
a 16-byte cyclic period, bytes 0 through 4 are left untouched, but byte
5 is zero-filled (the code copies only `shift-1 = 5` leading bytes into
the zero-initialized result). -/
theorem claim_C2_decrypt_xor_layout (k : KeyContainerKey) (wmid keyPassword : String) :
    (encrypt k wmid keyPassword).buffer.length = 140 ∧
    (∀ i, i < 5 → (encrypt k wmid keyPassword).buffer.getD i 0 = k.buffer.getD i 0) ∧
    (encrypt k wmid keyPassword).buffer.getD 5 0 = 0 ∧
    (∀ i, 6 ≤ i → i < 140 →
      (encrypt k wmid keyPassword).buffer.getD i 0 =
        k.buffer.getD i 0 ^^^
          (md4Hash (strToBytes (wmid ++ keyPassword))).getD ((i - 6) % 16) 0) := by
  have hmask : (md4Hash (strToBytes (wmid ++ keyPassword))).length = 16 := md4Hash_length _
  refine ⟨?_, ?_, ?_, ?_⟩
  · rw [encrypt_buffer, xorBuffer_length]
  · intro i hi
    rw [encrypt_buffer, xorBuffer_getD _ _ _ _ (by omega)]
    have h1 : i < 6 - 1 := by omega
    simp [h1]
  · rw [encrypt_buffer, xorBuffer_getD _ _ _ _ (by norm_num)]
    norm_num
  · intro i h6 h140
    rw [encrypt_buffer, xorBuffer_getD _ _ _ _ h140, hmask]
    have h1 : ¬ i < 6 - 1 := by omega
    have h2 : ¬ i < 6 := by omega
    simp [h1, h2]

/-- A 140-byte inner buffer of ones, nonzero at index 5. -/
def onesBuffer : List Nat := List.replicate 140 1

/-- A concrete key container whose inner buffer byte 5 is nonzero. -/
def kcOnes : KeyContainerKey :=
  { reserved := 0, signFlag := 0, crc := List.replicate 16 0, length := 0, buffer := onesBuffer }

/-- C2 counterexample: on this container byte 5 of the inner buffer is 1
before decryption and 0 after it, so the first 6 bytes are not all left
untouched as claimed. -/
theorem claim_C2_counterexample :
    kcOnes.buffer.getD 5 0 = 1 ∧
    (encrypt kcOnes "405002833238" "pw").buffer.getD 5 0 ≠ kcOnes.buffer.getD 5 0 := by
  constructor
  · decide
  · rw [encrypt_buffer, xorBuffer_getD _ _ _ _ (by norm_num)]
    decide

/-- C2 witness: the amended layout theorem instantiated on the concrete
container `kcOnes`, identifier "1" and passphrase "2", at indices 0 and 6. -/
theorem claim_C2_witness :
    (encrypt kcOnes "1" "2").buffer.length = 140 ∧
    (encrypt kcOnes "1" "2").buffer.getD 0 0 = kcOnes.buffer.getD 0 0 ∧
    (encrypt kcOnes "1" "2").buffer.getD 5 0 = 0 ∧
    (encrypt kcOnes "1" "2").buffer.getD 6 0 =
      kcOnes.buffer.getD 6 0 ^^^ (md4Hash (strToBytes ("1" ++ "2"))).getD 0 0 := by
  obtain ⟨h1, h2, h3, h4⟩ := claim_C2_decrypt_xor_layout kcOnes "1" "2"
  exact ⟨h1, h2 0 (by decide), h3, h4 6 (by decide) (by decide)⟩

/-- The checksum view exactly as the spec describes it (C3): reserved,
length and inner buffer only, 2+4+140 bytes, sign flag and checksum
excluded. Stated from the spec's words for comparison with `verify`. -/
def specChecksumView (k : KeyContainerKey) : List Nat :=
  leBytes 2 k.reserved ++ leBytes 4 k.length ++ k.buffer

/-- A fixed 140-byte inner buffer used to build a verifiable container. -/
def kcBuffer : List Nat := List.replicate 140 3

/-- The zero-flag serialization view of the fixed container. -/
def kcView : KeyContainerKey :=
  { reserved := 1, signFlag := 0, crc := List.replicate 16 0, length := 2, buffer := kcBuffer }

/-- A concrete key container that passes `verify`: its stored checksum is
the keyed hash of the code's re-serialized view. -/
def KC : KeyContainerKey :=
  { reserved := 1, signFlag := 5, crc := md4Hash (serializeKeyContainerKey kcView)
  , length := 2, buffer := kcBuffer }

set_option maxRecDepth 1000000 in
/-- C3 counterexample: this container passes `verify`, yet the keyed hash
of the 146-byte view (reserved ++ length ++ buffer only) differs from
the stored checksum — `binary.Write` serializes every struct field, so
the hashed view is 164 bytes with sign flag and checksum zero-filled,
not 146 bytes with them excluded. -/
theorem claim_C3_counterexample :
    verify KC = true ∧ md4Hash (specChecksumView KC) ≠ KC.crc := by
  constructor
  · decide
  · decide

/-- C3 (amended): `verify` hashes the full 164-byte little-endian
serialization of a header whose sign flag and checksum are zero-valued —
reserved(2) ++ signFlag=0(2) ++ crc=0(16) ++ length(4) ++ buffer(140) —
and returns true exactly when that hash equals the stored checksum. -/
theorem claim_C3_verify_hashed_view (k : KeyContainerKey) :
    (verify k = true ↔
      md4Hash (leBytes 2 k.reserved ++ leBytes 2 0 ++ List.replicate 16 0 ++
        leBytes 4 k.length ++ k.buffer) = k.crc) ∧
    (k.buffer.length = 140 →
      (leBytes 2 k.reserved ++ leBytes 2 0 ++ List.replicate 16 0 ++
        leBytes 4 k.length ++ k.buffer).length = 164) := by
  constructor
  · simp [verify, serializeKeyContainerKey]
  · intro h
    simp [leBytes_length, h]

set_option maxRecDepth 1000000 in
/-- C3 witness: the amended theorem instantiated on the concrete
container `KC`, whose buffer has the required 140 bytes. -/
theorem claim_C3_witness :
    (verify KC = true ↔
      md4Hash (leBytes 2 KC.reserved ++ leBytes 2 0 ++ List.replicate 16 0 ++
        leBytes 4 KC.length ++ KC.buffer) = KC.crc) ∧
    (leBytes 2 KC.reserved ++ leBytes 2 0 ++ List.replicate 16 0 ++
      leBytes 4 KC.length ++ KC.buffer).length = 164 := by
  obtain ⟨h1, h2⟩ := claim_C3_verify_hashed_view KC
  exact ⟨h1, h2 (by decide)⟩

/-- C8: `extract` on a container passing `verify` is deterministic —
every call returns the same (power, modulus) pair — and is exactly the
decode of the inner buffer with the two 66-byte fields byte-reversed and
read as unsigned big-endian integers; it depends on nothing but the
stored buffer, which it does not modify. -/
theorem claim_C8_extract_deterministic (k : KeyContainerKey) (_hv : verify k = true) :
    extract k = extract k ∧
    extract k = (bytesToNat (reverseBytes ((k.buffer.drop 6).take 66)),
                 bytesToNat (reverseBytes ((k.buffer.drop 74).take 66))) ∧
    (∀ k2 : KeyContainerKey, k2.buffer = k.buffer → extract k2 = extract k) := by
  refine ⟨rfl, rfl, ?_⟩
  intro k2 hb
  simp [extract, parseKeyData, hb]

set_option maxRecDepth 1000000 in
/-- C8 witness: the concrete container `KC` passes `verify` and the
extraction theorem applies to it. -/
theorem claim_C8_witness :
    extract KC = extract KC ∧
    extract KC = (bytesToNat (reverseBytes ((KC.buffer.drop 6).take 66)),
                  bytesToNat (reverseBytes ((KC.buffer.drop 74).take 66))) ∧
    (∀ k2 : KeyContainerKey, k2.buffer = KC.buffer → extract k2 = extract KC) :=
  claim_C8_extract_deterministic KC (by decide)

/-- Twelve-decimal-digit identifier as the claim's parenthetical reads
the pattern: exactly twelve characters, all decimal digits. Stated from
the spec's words for comparison with the unanchored `WmIdRegex`. -/
def specTwelveDigitId (s : String) : Bool :=
  (s.toList.length == 12) && s.toList.all isDigitChar

/-- The configuration-error subset of the error taxonomy: the errors the
spec groups as ConfigurationError. -/
def specConfigurationError : SignerError → Bool
  | SignerError.wmIdNotConfigured => true
  | SignerError.wmIdIsIncorrect => true
  | SignerError.keyNotConfigured => true
  | SignerError.passwordNotConfigured => true
  | _ => false

set_option maxRecDepth 1000000 in
/-- C5 counterexample: "1234567890123" is not exactly twelve decimal
digits, yet `NewSigner` gets past the identifier check (the unanchored
`[0-9]{12}` matches a substring), base64-decodes the key and fails with
the non-configuration format error `ErrorKeyFileBroken` instead. -/
theorem claim_C5_counterexample :
    specTwelveDigitId "1234567890123" = false ∧
    newSigner [wmIdOpt "1234567890123", keyOpt "MTIzNDU2Nzg5MA==", passwordOpt "x"] =
      Except.error SignerError.keyFileBroken ∧
    specConfigurationError SignerError.keyFileBroken = false := by
  refine ⟨by decide, by decide, by decide⟩

/-- C5 (amended): every identifier containing no run of twelve
consecutive decimal digits (and hence failing the regex check) makes
`NewSigner` fail with the configuration error `ErrorWmIdIsIncorrect`
before base64 decoding or any cryptographic step; identifiers that
merely are not *exactly* twelve digits can pass the unanchored check. -/
theorem claim_C5_config_error_on_no_digit_run (wmId key password : String)
    (hrun : wmIdRegexMatch wmId = false) (hne : wmId ≠ "") :
    newSigner [wmIdOpt wmId, keyOpt key, passwordOpt password] =
      Except.error SignerError.wmIdIsIncorrect ∧
    specConfigurationError SignerError.wmIdIsIncorrect = true := by
  refine ⟨?_, rfl⟩
  simp [newSigner, executeOptions, wmIdOpt, keyOpt, passwordOpt, hrun, hne]

/-- C5 witness: the amended theorem applied to the twelve-character
identifier "12345678901a", which contains no twelve-digit run. -/
theorem claim_C5_witness :
    newSigner [wmIdOpt "12345678901a", keyOpt "k", passwordOpt "p"] =
      Except.error SignerError.wmIdIsIncorrect ∧
    specConfigurationError SignerError.wmIdIsIncorrect = true :=
  claim_C5_config_error_on_no_digit_run "12345678901a" "k" "p" (by decide) (by decide)

/-- C6: with the identifier and passphrase configured, every key whose
base64 decoding succeeds with a length other than 164 bytes makes
`NewSigner` fail with `ErrorKeyFileBroken` before any decryption,
verification or extraction, returning no signer. -/
theorem claim_C6_wrong_length_key (wmId key password : String) (bs : List Nat)
    (hrun : wmIdRegexMatch wmId = true) (hw : wmId ≠ "") (hk : key ≠ "")
    (hp : password ≠ "") (hdec : base64Decode key = some bs) (hlen : bs.length ≠ 164) :
    newSigner [wmIdOpt wmId, keyOpt key, passwordOpt password] =
      Except.error SignerError.keyFileBroken := by
  simp [newSigner, executeOptions, wmIdOpt, keyOpt, passwordOpt, hrun, hw, hk, hp, hdec, hlen]

set_option maxRecDepth 1000000 in
/-- C6 witness: the key "MTIzNDU2Nzg5MA==" decodes to the 10 bytes of
"1234567890", which is not 164 bytes, and construction fails with
`ErrorKeyFileBroken`. -/
theorem claim_C6_witness :
    newSigner [wmIdOpt "405002833238", keyOpt "MTIzNDU2Nzg5MA==", passwordOpt "p"] =
      Except.error SignerError.keyFileBroken :=
  claim_C6_wrong_length_key "405002833238" "MTIzNDU2Nzg5MA==" "p"
    [49, 50, 51, 52, 53, 54, 55, 56, 57, 48]
    (by decide) (by decide) (by decide) (by decide) (by decide) (by decide)

/-- C1: for every 40-byte random draw, `Sign` hashes the message to 16
bytes, builds the 58-byte buffer from the 2-byte prefix [56, 0] followed
by the digest and the randomness, byte-reverses it, reads it as an
unsigned big-endian integer, raises it to the power modulo the modulus,
takes the minimal big-endian bytes of the result, word-reverses them
with `reverseBytesAsWords` and returns the lowercase hex encoding. -/
theorem claim_C1_sign_pipeline (m : Signer) (data rnd : List Nat) (hr : rnd.length = 40) :
    (md4Hash data).length = 16 ∧
    (56 :: 0 :: (md4Hash data ++ rnd)).length = 58 ∧
    signSign m data (Except.ok rnd) = Except.ok (hexEncode (reverseBytesAsWords (natToBytes
      (bytesToNat (reverseBytes (56 :: 0 :: (md4Hash data ++ rnd))) ^ m.power % m.modulus)))) := by
  have h16 := md4Hash_length data
  have h56 : (md4Hash data ++ rnd).length % 256 = 56 := by
    simp [List.length_append, h16, hr]
  refine ⟨h16, by simp [List.length_append, h16, hr], ?_⟩
  simp only [signSign]
  rw [h56]

/-- C1 witness: the pipeline theorem applied to a concrete signer, the
empty message and a concrete 40-byte draw. -/
theorem claim_C1_witness :
    (md4Hash []).length = 16 ∧
    (56 :: 0 :: (md4Hash [] ++ List.replicate 40 7)).length = 58 ∧
    signSign ⟨7, 11⟩ [] (Except.ok (List.replicate 40 7)) =
      Except.ok (hexEncode (reverseBytesAsWords (natToBytes
        (bytesToNat (reverseBytes (56 :: 0 :: (md4Hash [] ++ List.replicate 40 7))) ^
          (7 : Nat) % 11)))) :=
  claim_C1_sign_pipeline ⟨7, 11⟩ [] (List.replicate 40 7) (by decide)

/-- The integer `Sign` feeds into the modular exponentiation: the
byte-reversed prefixed buffer read big-endian (the subterm of
`signSign` before `Exp`). -/
def signBaseInt (data rnd : List Nat) : Nat :=
  bytesToNat (reverseBytes ((md4Hash data ++ rnd).length % 256 :: 0 :: (md4Hash data ++ rnd)))

theorem signSign_zero (m : Signer) (data rnd : List Nat)
    (h : signBaseInt data rnd ^ m.power % m.modulus = 0) :
    signSign m data (Except.ok rnd) = Except.ok "" := by
  simp only [signSign]
  rw [show bytesToNat (reverseBytes ((md4Hash data ++ rnd).length % 256 :: 0 ::
      (md4Hash data ++ rnd))) ^ m.power % m.modulus = 0 from h, natToBytes_zero,
    reverseBytesAsWords_nil, hexEncode_nil]

/-- C7 counterexample: with modulus 1 the exponentiation collapses every
base to 0, so two successful `Sign` calls on the same message with
distinct random draws return the same (empty) signature string. -/
theorem claim_C7_counterexample :
    List.replicate 40 0 ≠ List.replicate 40 255 ∧
    signSign ⟨3, 1⟩ [] (Except.ok (List.replicate 40 0)) =
      signSign ⟨3, 1⟩ [] (Except.ok (List.replicate 40 255)) := by
  refine ⟨by decide, ?_⟩
  rw [signSign_zero _ _ _ (by simp [Nat.mod_one]),
    signSign_zero _ _ _ (by simp [Nat.mod_one])]

/-- C7 (amended): for a fixed message, distinct 40-byte random draws
always produce distinct pre-exponentiation integers (the randomized
buffers differ, and reading same-length byte buffers big-endian is
injective), but the final signature strings need not differ, since the
modular exponentiation can collapse distinct bases (e.g. modulus 1). -/
theorem claim_C7_distinct_draws_distinct_base (data r1 r2 : List Nat)
    (h1 : r1.length = 40) (h2 : r2.length = 40)
    (hb1 : ∀ b ∈ r1, b < 256) (hb2 : ∀ b ∈ r2, b < 256) (hne : r1 ≠ r2) :
    (∀ m : Signer, signSign m data (Except.ok r1) =
      Except.ok (hexEncode (reverseBytesAsWords (natToBytes
        (signBaseInt data r1 ^ m.power % m.modulus))))) ∧
    signBaseInt data r1 ≠ signBaseInt data r2 := by
  constructor
  · intro m
    simp only [signSign, signBaseInt]
  · intro heq
    apply hne
    have hmem : ∀ r : List Nat, (∀ b ∈ r, b < 256) →
        ∀ b ∈ (md4Hash data ++ r).length % 256 :: 0 :: (md4Hash data ++ r), b < 256 := by
      intro r hr b hbm
      rcases List.mem_cons.mp hbm with rfl | hbm
      · exact Nat.mod_lt _ (by norm_num)
      rcases List.mem_cons.mp hbm with rfl | hbm
      · norm_num
      rcases List.mem_append.mp hbm with hbm | hbm
      · exact md4Hash_mem_lt data b hbm
      · exact hr b hbm
    have hrev := bytesToNat_inj _ _
      (by simp [reverseBytes_length, md4Hash_length, h1, h2])
      (fun b hbm => hmem r1 hb1 b
        (by rwa [reverseBytes_eq_reverse, List.mem_reverse] at hbm))
      (fun b hbm => hmem r2 hb2 b
        (by rwa [reverseBytes_eq_reverse, List.mem_reverse] at hbm))
      heq
    rw [reverseBytes_eq_reverse, reverseBytes_eq_reverse] at hrev
    have hL := List.reverse_injective hrev
    injection hL with _ hL2
    injection hL2 with _ hL3
    exact List.append_cancel_left hL3

/-- C7 witness: the amended theorem applied to two concrete distinct
40-byte draws on the empty message. -/
theorem claim_C7_witness :
    (∀ m : Signer, signSign m [] (Except.ok (List.replicate 40 0)) =
      Except.ok (hexEncode (reverseBytesAsWords (natToBytes
        (signBaseInt [] (List.replicate 40 0) ^ m.power % m.modulus))))) ∧
    signBaseInt [] (List.replicate 40 0) ≠ signBaseInt [] (List.replicate 40 1) :=
  claim_C7_distinct_draws_distinct_base [] (List.replicate 40 0) (List.replicate 40 1)
    (by decide) (by decide) (by decide) (by decide) (by decide)

/-- C10: when the modular exponentiation inside `Sign` yields zero, the
minimal byte representation of the result is empty, `reverseBytesAsWords`
returns the empty buffer, and `Sign` returns the empty string with no
error. -/
theorem claim_C10_zero_result_empty_signature (m : Signer) (data rnd : List Nat)
    (h : signBaseInt data rnd ^ m.power % m.modulus = 0) :
    natToBytes 0 = [] ∧ reverseBytesAsWords [] = [] ∧ hexEncode [] = "" ∧
    signSign m data (Except.ok rnd) = Except.ok "" :=
  ⟨natToBytes_zero, reverseBytesAsWords_nil, hexEncode_nil, signSign_zero m data rnd h⟩

/-- C10 witness: with modulus 1 the exponentiation result is zero and
the signature is the empty string with no error. -/
theorem claim_C10_witness :
    natToBytes 0 = [] ∧ reverseBytesAsWords [] = [] ∧ hexEncode [] = "" ∧
    signSign ⟨3, 1⟩ [] (Except.ok []) = Except.ok "" :=
  claim_C10_zero_result_empty_signature ⟨3, 1⟩ [] [] (by simp [signBaseInt, Nat.mod_one])

end WebMoney
